import Mathlib

/-!
Verification development for the hospital emergency-room simulation
(`src/Simulation.cpp`).

The C++ program is shallowly embedded as follows.

* `Priority`, `Patient` mirror the `Priority` enum and `Patient` struct.
* `comparePatient` is the `ComparePatient` comparator used by the
  `std::priority_queue`.  The queue itself is modelled as the list of
  enqueued patients in arrival order; `extractTop`/`dequeueSteps` model
  `top()`/`pop()`: each step removes a maximal element with respect to the
  comparator (i.e. the most urgent patient).
* `Semaphore` mirrors the `Semaphore` class (an `int count` guarded by a
  mutex): `acquire?` (blocking acquire, `none` = caller blocks),
  `try_acquire`, `release`, `available`.
* `PoolState`/`poolStep` is the same semaphore together with ghost
  accounting fields (`held`: units currently held by callers, `cap`: the
  conceptual capacity = initial count plus permanent growth), used to state
  the `0 ≤ available ≤ capacity` invariant, which the C++ code keeps only
  conceptually (capacity growth in `dynamicResourceGeneration` is performed
  by extra `release()` calls).
* `Pools`, `Ev`, `applyEv`, `treatCycleEvs` model one iteration of the
  worker body `treatPatient` after a patient has been dequeued: the emitted
  event list records, in program order, every semaphore operation together
  with the treatment-start / completion reports; `applyEv` gives each
  event's effect on the four pools.  A blocking mandatory `acquire` on an
  exhausted pool is modelled as `none` (the cycle does not complete in this
  sequential semantics).
* `treatLoop` models the `while (isRunning)` loop of `treatPatient` with
  the shutdown flag held constant (the program flips it `true → false`
  exactly once, so the constant-flag model covers execution from any loop
  head after shutdown).
* `SysOp`/`sysRun` model serialized interleavings of complete component
  actions (a worker treatment cycle, one `dynamicResourceGeneration` tick,
  one `staffBehavior` tick), exposing every intermediate pool state that
  arises inside a cycle.
-/

/-- `enum Priority { HIGH, MEDIUM, LOW }`. -/
inductive Priority where
  | HIGH
  | MEDIUM
  | LOW
deriving DecidableEq, Repr

/-- Numeric value of the C++ enum constant (`HIGH = 0`, `MEDIUM = 1`, `LOW = 2`). -/
def Priority.toNat : Priority → Nat
  | .HIGH => 0
  | .MEDIUM => 1
  | .LOW => 2

/-- `struct Patient { int id; string name; Priority priority; }`.
`id` is assigned monotonically by `patientArrival`, so it also serves as the
arrival sequence number. -/
structure Patient where
  id : Nat
  name : String
  priority : Priority
deriving DecidableEq, Repr

/-- `ComparePatient::operator()`: returns `true` when `a` is *less urgent*
than `b` in the `std::priority_queue` heap order (`a` comes after `b`).
Same priority falls back to first-come-first-served on `id`. -/
def comparePatient (a b : Patient) : Bool :=
  if a.priority = b.priority then
    decide (a.id > b.id)
  else
    decide (a.priority.toNat > b.priority.toNat)

/-- The triage order the spec describes: `a` is dequeued no later than `b`
iff `a` has strictly higher priority (smaller enum value) or the same
priority and an arrival sequence no larger than `b`'s. -/
def triageLe (a b : Patient) : Prop :=
  a.priority.toNat < b.priority.toNat ∨ (a.priority = b.priority ∧ a.id ≤ b.id)

instance (a b : Patient) : Decidable (triageLe a b) := by
  unfold triageLe
  infer_instance

theorem Priority.toNat_inj : ∀ {p q : Priority}, p.toNat = q.toNat → p = q := by
  intro p q
  cases p <;> cases q <;> simp [Priority.toNat]

theorem comparePatient_eq_false_iff (a b : Patient) :
    comparePatient a b = false ↔ triageLe a b := by
  unfold comparePatient triageLe
  by_cases h : a.priority = b.priority
  · simp [h]
  · have : a.priority.toNat ≠ b.priority.toNat := fun hc => h (Priority.toNat_inj hc)
    simp [h]
    omega

theorem triageLe_refl (a : Patient) : triageLe a a := Or.inr ⟨rfl, le_refl _⟩

theorem triageLe_trans {a b c : Patient} (hab : triageLe a b) (hbc : triageLe b c) :
    triageLe a c := by
  rcases hab with h1 | ⟨h1, h1'⟩ <;> rcases hbc with h2 | ⟨h2, h2'⟩
  · exact Or.inl (lt_trans h1 h2)
  · exact Or.inl (h2 ▸ h1)
  · exact Or.inl (h1 ▸ h2)
  · exact Or.inr ⟨h1.trans h2, le_trans h1' h2'⟩

theorem triageLe_total (a b : Patient) : triageLe a b ∨ triageLe b a := by
  unfold triageLe
  by_cases h : a.priority = b.priority
  · rcases le_total a.id b.id with h' | h'
    · exact Or.inl (Or.inr ⟨h, h'⟩)
    · exact Or.inr (Or.inr ⟨h.symm, h'⟩)
  · have : a.priority.toNat ≠ b.priority.toNat := fun hc => h (Priority.toNat_inj hc)
    rcases Nat.lt_or_ge a.priority.toNat b.priority.toNat with h' | h'
    · exact Or.inl (Or.inl h')
    · exact Or.inr (Or.inl (lt_of_le_of_ne h' (Ne.symm this)))

theorem comparePatient_true_triageLe {a b : Patient} (h : comparePatient a b = true) :
    triageLe b a := by
  have hne : ¬ triageLe a b := by
    intro hc
    rw [← comparePatient_eq_false_iff] at hc
    simp [h] at hc
  rcases triageLe_total a b with h' | h'
  · exact absurd h' hne
  · exact h'

/-- Model of `patientQueue.top(); patientQueue.pop()` on a non-empty
multiset `p :: l`: returns the most urgent patient (maximal for the heap
comparator, earliest-arrived among ties) and the remaining patients. -/
def extractTop (p : Patient) : List Patient → Patient × List Patient
  | [] => (p, [])
  | q :: rest =>
    if comparePatient p q then
      -- `q` is strictly more urgent than `p`: `p` stays behind.
      let m := extractTop q rest
      (m.1, p :: m.2)
    else
      let m := extractTop p rest
      (m.1, q :: m.2)

theorem extractTop_length (p : Patient) (l : List Patient) :
    (extractTop p l).2.length = l.length := by
  induction l generalizing p with
  | nil => rfl
  | cons q rest ih =>
    unfold extractTop
    by_cases h : comparePatient p q
    · simp [h, ih q]
    · simp [h, ih p]

theorem extractTop_perm (p : Patient) (l : List Patient) :
    List.Perm ((extractTop p l).1 :: (extractTop p l).2) (p :: l) := by
  induction l generalizing p with
  | nil => exact List.Perm.refl _
  | cons q rest ih =>
    unfold extractTop
    by_cases h : comparePatient p q
    · simp only [h, if_true]
      exact (List.Perm.swap p _ _).trans ((ih q).cons p)
    · simp only [h, if_false]
      exact (List.Perm.swap q _ _).trans (((ih p).cons q).trans (List.Perm.swap p q rest))

theorem extractTop_le (p : Patient) (l : List Patient) :
    ∀ x ∈ p :: l, triageLe (extractTop p l).1 x := by
  induction l generalizing p with
  | nil =>
    intro x hx
    simp [extractTop] at hx ⊢
    rw [hx]
    exact triageLe_refl p
  | cons q rest ih =>
    intro x hx
    unfold extractTop
    by_cases h : comparePatient p q
    · simp only [h, if_true]
      have hqp : triageLe q p := comparePatient_true_triageLe h
      have htop := ih q
      rcases List.mem_cons.mp hx with hx | hx
      · subst hx
        exact triageLe_trans (htop q (List.mem_cons_self q rest)) hqp
      · rcases List.mem_cons.mp hx with hx | hx
        · subst hx
          exact htop x (List.mem_cons_self x rest)
        · exact htop x (List.mem_cons_of_mem q hx)
    · simp only [h, if_false]
      have hpq : triageLe p q := by
        rw [← comparePatient_eq_false_iff]
        simpa using h
      have htop := ih p
      rcases List.mem_cons.mp hx with hx | hx
      · rw [hx]
        exact htop p (List.mem_cons_self p rest)
      · rcases List.mem_cons.mp hx with hx | hx
        · rw [hx]
          exact triageLe_trans (htop p (List.mem_cons_self p rest)) hpq
        · exact htop x (List.mem_cons_of_mem p hx)

/-- Repeatedly pop the most urgent patient; `n` bounds the number of pops
(the queue drains completely when `n = l.length`). -/
def dequeueSteps : Nat → List Patient → List Patient
  | 0, _ => []
  | _ + 1, [] => []
  | n + 1, p :: rest =>
    let m := extractTop p rest
    m.1 :: dequeueSteps n m.2

/-- The order in which the queue hands out every enqueued patient. -/
def dequeueAll (l : List Patient) : List Patient :=
  dequeueSteps l.length l

theorem dequeueSteps_perm :
    ∀ (n : Nat) (l : List Patient), l.length = n → List.Perm (dequeueSteps n l) l := by
  intro n
  induction n with
  | zero =>
    intro l hl
    rw [List.length_eq_zero] at hl
    subst hl
    exact List.Perm.refl _
  | succ n ih =>
    intro l hl
    cases l with
    | nil => simp at hl
    | cons p rest =>
      have hr : (extractTop p rest).2.length = n := by
        rw [extractTop_length]
        simpa using hl
      show List.Perm ((extractTop p rest).1 :: dequeueSteps n (extractTop p rest).2) (p :: rest)
      exact ((ih _ hr).cons _).trans (extractTop_perm p rest)

theorem dequeueSteps_sorted :
    ∀ (n : Nat) (l : List Patient), l.length = n →
      (dequeueSteps n l).Pairwise triageLe := by
  intro n
  induction n with
  | zero => intro l _; simp [dequeueSteps]
  | succ n ih =>
    intro l hl
    cases l with
    | nil => simp at hl
    | cons p rest =>
      have hr : (extractTop p rest).2.length = n := by
        rw [extractTop_length]
        simpa using hl
      show ((extractTop p rest).1 :: dequeueSteps n (extractTop p rest).2).Pairwise triageLe
      refine List.Pairwise.cons ?_ (ih _ hr)
      intro y hy
      have hy' : y ∈ (extractTop p rest).2 := (dequeueSteps_perm n _ hr).mem_iff.mp hy
      have : y ∈ (extractTop p rest).1 :: (extractTop p rest).2 :=
        List.mem_cons_of_mem _ hy'
      have hy'' : y ∈ p :: rest := (extractTop_perm p rest).mem_iff.mp this
      exact extractTop_le p rest y hy''

theorem dequeueAll_perm (l : List Patient) : List.Perm (dequeueAll l) l :=
  dequeueSteps_perm l.length l rfl

theorem dequeueAll_sorted (l : List Patient) : (dequeueAll l).Pairwise triageLe :=
  dequeueSteps_sorted l.length l rfl

/-- The scenario patients: LOW with arrival sequence 1. -/
def lowArrival : Patient := ⟨1, "Low1", Priority.LOW⟩

/-- The scenario patients: HIGH with arrival sequence 2. -/
def highArrival : Patient := ⟨2, "High2", Priority.HIGH⟩

/-- The scenario patients: MEDIUM with arrival sequence 3. -/
def medArrival : Patient := ⟨3, "Med3", Priority.MEDIUM⟩

/-- Claim C1: for every sequence of enqueued entities, the dequeue order is a
sorted-by-triage permutation of the enqueued entities — priority `HIGH`
before `MEDIUM` before `LOW`, ties broken by arrival sequence ascending
(`triageLe` is exactly that order); in particular enqueuing
LOW(seq 1), HIGH(seq 2), MEDIUM(seq 3) dequeues HIGH(2), MEDIUM(3), LOW(1). -/
theorem claim_C1 :
    (∀ l : List Patient,
        List.Perm (dequeueAll l) l ∧ (dequeueAll l).Pairwise triageLe) ∧
    dequeueAll [lowArrival, highArrival, medArrival] =
      [highArrival, medArrival, lowArrival] :=
  ⟨fun l => ⟨dequeueAll_perm l, dequeueAll_sorted l⟩, by decide⟩

/-- `class Semaphore { int count; ... }` — the mutex/condition-variable
synchronization is internal; the observable state is `count`. -/
structure Semaphore where
  count : Int
deriving DecidableEq, Repr

/-- `Semaphore::acquire()`: waits until `count > 0`, then decrements.
`none` models the caller blocking (in this sequential semantics the call
never completes when the pool is exhausted). -/
def Semaphore.acquire? (s : Semaphore) : Option Semaphore :=
  if 0 < s.count then some ⟨s.count - 1⟩ else none

/-- `Semaphore::release()`: unconditionally increments `count`. -/
def Semaphore.release (s : Semaphore) : Semaphore := ⟨s.count + 1⟩

/-- `Semaphore::try_acquire()`: if `count > 0`, decrement and return
`true`; otherwise return `false` leaving the state untouched. -/
def Semaphore.try_acquire (s : Semaphore) : Bool × Semaphore :=
  if 0 < s.count then (true, ⟨s.count - 1⟩) else (false, s)

/-- `Semaphore::available()`. -/
def Semaphore.available (s : Semaphore) : Int := s.count

/-- Claim C6: `try_acquire` succeeds iff `count > 0` at the call; on success
it decrements `count` by exactly 1, on failure it leaves the state
completely unchanged, and it never succeeds when `count = 0`.  (It also
never blocks: it is a total function of the state.) -/
theorem claim_C6 :
    ∀ s : Semaphore,
      ((s.try_acquire).1 = true ↔ 0 < s.count) ∧
      (0 < s.count → (s.try_acquire).2.count = s.count - 1) ∧
      (¬ 0 < s.count → (s.try_acquire).2 = s) ∧
      (s.count = 0 → (s.try_acquire).1 = false) := by
  intro s
  by_cases h : 0 < s.count <;>
    simp [Semaphore.try_acquire, h] <;> omega

/-- Witness for C6 at the concrete pool state `count = 1`. -/
theorem claim_C6_witness :
    (((Semaphore.mk 1).try_acquire).1 = true ↔ 0 < (Semaphore.mk 1).count) ∧
      (0 < (Semaphore.mk 1).count →
        ((Semaphore.mk 1).try_acquire).2.count = (Semaphore.mk 1).count - 1) ∧
      (¬ 0 < (Semaphore.mk 1).count →
        ((Semaphore.mk 1).try_acquire).2 = Semaphore.mk 1) ∧
      ((Semaphore.mk 1).count = 0 → ((Semaphore.mk 1).try_acquire).1 = false) :=
  claim_C6 ⟨1⟩

/-- One `acquire(); release();` pair. -/
def roundTrip (s : Semaphore) : Option Semaphore :=
  (s.acquire?).map Semaphore.release

/-- `n` sequential `acquire(); release();` pairs. -/
def roundTrips : Nat → Semaphore → Option Semaphore
  | 0, s => some s
  | n + 1, s => (roundTrip s).bind (roundTrips n)

/-- Claim C7: for every pool and every `n ≥ 0`, `n` sequential
`acquire(); release();` pairs complete (each `acquire`'s precondition
`count > 0` holds at its call) and leave `count` at its initial value. -/
theorem claim_C7 (n : Nat) (s : Semaphore) (hs : 0 < s.count) :
    roundTrips n s = some s := by
  obtain ⟨c⟩ := s
  induction n with
  | zero => rfl
  | succ n ih =>
    have hstep : roundTrip ⟨c⟩ = some ⟨c⟩ := by
      simp only [roundTrip, Semaphore.acquire?]
      rw [if_pos hs]
      simp [Semaphore.release]
    show (roundTrip ⟨c⟩).bind (roundTrips n) = some ⟨c⟩
    rw [hstep]
    exact ih

/-- Witness for C7: three round-trips on a pool with 3 units. -/
theorem claim_C7_witness :
    0 < (Semaphore.mk 3).count ∧ roundTrips 3 ⟨3⟩ = some ⟨3⟩ :=
  ⟨by decide, claim_C7 3 ⟨3⟩ (by decide)⟩

/-- One `staffBehavior` cycle body (under `queueMutex`): try-acquire a
doctor; on success hold for the break duration and release; on failure skip
the cycle.  Time is abstracted away — only the pool effects remain. -/
def staffCycle (s : Semaphore) : Semaphore :=
  let r := s.try_acquire
  if r.1 then r.2.release else r.2

/-- Claim C8: one FatigueController cycle either succeeds in `try_acquire`
(leaving a non-negative intermediate count one below the starting value,
still within capacity) and releases, restoring `count` to its pre-cycle
value, or finds the pool exhausted and leaves it completely unchanged; in
neither case does `count` go negative or exceed a capacity bound that the
starting state respects. -/
theorem claim_C8 (s : Semaphore) (cap : Int) (h0 : 0 ≤ s.count)
    (hcap : s.count ≤ cap) :
    staffCycle s = s ∧
      ((0 < s.count ∧ (s.try_acquire).1 = true ∧
          (s.try_acquire).2.count = s.count - 1 ∧
          0 ≤ (s.try_acquire).2.count ∧ (s.try_acquire).2.count ≤ cap) ∨
        (s.count ≤ 0 ∧ s.try_acquire = (false, s))) := by
  obtain ⟨c⟩ := s
  have h0' : (0 : Int) ≤ c := h0
  have hcap' : c ≤ cap := hcap
  by_cases h : (0 : Int) < c
  · have htry : Semaphore.try_acquire ⟨c⟩ = (true, ⟨c - 1⟩) := by
      simp [Semaphore.try_acquire, h]
    have hrel : staffCycle ⟨c⟩ = ⟨c - 1 + 1⟩ := by
      simp [staffCycle, htry, Semaphore.release]
    refine ⟨?_, Or.inl ⟨h, ?_, ?_, ?_, ?_⟩⟩
    · rw [hrel]
      congr 1
      omega
    · rw [htry]
    · rw [htry]
    · rw [htry]
      show (0 : Int) ≤ c - 1
      omega
    · rw [htry]
      show c - 1 ≤ cap
      omega
  · have htry : Semaphore.try_acquire ⟨c⟩ = (false, ⟨c⟩) := by
      simp [Semaphore.try_acquire, h]
    refine ⟨?_, Or.inr ⟨by show c ≤ 0; omega, htry⟩⟩
    simp [staffCycle, htry]

/-- Witness for C8 at the concrete pool state `count = 2`, capacity 3. -/
theorem claim_C8_witness :
    0 ≤ (Semaphore.mk 2).count ∧ (Semaphore.mk 2).count ≤ 3 ∧
      (staffCycle ⟨2⟩ = ⟨2⟩ ∧
        ((0 < (Semaphore.mk 2).count ∧ ((Semaphore.mk 2).try_acquire).1 = true ∧
            ((Semaphore.mk 2).try_acquire).2.count = (Semaphore.mk 2).count - 1 ∧
            0 ≤ ((Semaphore.mk 2).try_acquire).2.count ∧
            ((Semaphore.mk 2).try_acquire).2.count ≤ 3) ∨
          ((Semaphore.mk 2).count ≤ 0 ∧
            (Semaphore.mk 2).try_acquire = (false, ⟨2⟩)))) :=
  ⟨by decide, by decide, claim_C8 ⟨2⟩ 3 (by decide) (by decide)⟩

/-- The operations performed on one `Semaphore` by the program: blocking
`acquire()` by a worker, `try_acquire()` (worker ventilator attempt /
FatigueController), `release()` of a unit the caller holds, and capacity
growth (`dynamicResourceGeneration` performs it as an extra `release()`
that adds a unit nobody held). -/
inductive PoolOp where
  | acq
  | tryAcq
  | rel
  | grow
deriving DecidableEq, Repr

/-- The semaphore `count` together with ghost accounting: `held` is the
number of units currently held by callers, `cap` the conceptual capacity
(initial count plus permanent growth).  These two fields do not exist in
the C++ object; they record how the program uses it. -/
structure PoolState where
  count : Int
  held : Int
  cap : Int
deriving DecidableEq, Repr

/-- Effect of one operation.  A blocking `acquire` on an exhausted pool
leaves the state unchanged at every observable point while the caller
waits; `rel` is the unconditional `++count` of `Semaphore::release`. -/
def poolStep (s : PoolState) : PoolOp → PoolState
  | .acq => if 0 < s.count then ⟨s.count - 1, s.held + 1, s.cap⟩ else s
  | .tryAcq => if 0 < s.count then ⟨s.count - 1, s.held + 1, s.cap⟩ else s
  | .rel => ⟨s.count + 1, s.held - 1, s.cap⟩
  | .grow => ⟨s.count + 1, s.held, s.cap + 1⟩

/-- Run a sequence of pool operations. -/
def poolRun (s : PoolState) : List PoolOp → PoolState
  | [] => s
  | op :: ops => poolRun (poolStep s op) ops

/-- The caller contract of `release()` (§4.1: callers must never release
more units than they hold): every `rel` in the sequence happens at a state
in which at least one unit is held.  All releases issued by the program
satisfy it: `treatPatient` releases exactly the units it acquired and
`staffBehavior` releases only after a successful `try_acquire`. -/
def ValidOps (s : PoolState) : List PoolOp → Prop
  | [] => True
  | op :: ops => (op = .rel → 0 < s.held) ∧ ValidOps (poolStep s op) ops

instance : ∀ (s : PoolState) (ops : List PoolOp), Decidable (ValidOps s ops)
  | _, [] => by unfold ValidOps; infer_instance
  | s, op :: ops =>
    have := instDecidableValidOps (poolStep s op) ops
    by unfold ValidOps; infer_instance

/-- The pool invariant with its ghost strengthening: `count` and `held` are
non-negative and together exhaust the capacity. -/
def PoolInv (s : PoolState) : Prop :=
  0 ≤ s.count ∧ 0 ≤ s.held ∧ s.count + s.held = s.cap

instance (s : PoolState) : Decidable (PoolInv s) := by
  unfold PoolInv
  infer_instance

theorem poolStep_inv {s : PoolState} {op : PoolOp} (hs : PoolInv s)
    (hop : op = .rel → 0 < s.held) : PoolInv (poolStep s op) := by
  obtain ⟨c, hd, cp⟩ := s
  obtain ⟨h1, h2, h3⟩ := hs
  have h1' : (0 : Int) ≤ c := h1
  have h2' : (0 : Int) ≤ hd := h2
  have h3' : c + hd = cp := h3
  cases op with
  | acq =>
    by_cases h : (0 : Int) < c
    · have hstep : poolStep ⟨c, hd, cp⟩ .acq = ⟨c - 1, hd + 1, cp⟩ := by
        simp [poolStep, h]
      rw [hstep]
      exact ⟨by show (0 : Int) ≤ c - 1; omega, by show (0 : Int) ≤ hd + 1; omega,
        by show c - 1 + (hd + 1) = cp; omega⟩
    · have hstep : poolStep ⟨c, hd, cp⟩ .acq = ⟨c, hd, cp⟩ := by
        simp [poolStep, h]
      rw [hstep]
      exact ⟨h1', h2', h3'⟩
  | tryAcq =>
    by_cases h : (0 : Int) < c
    · have hstep : poolStep ⟨c, hd, cp⟩ .tryAcq = ⟨c - 1, hd + 1, cp⟩ := by
        simp [poolStep, h]
      rw [hstep]
      exact ⟨by show (0 : Int) ≤ c - 1; omega, by show (0 : Int) ≤ hd + 1; omega,
        by show c - 1 + (hd + 1) = cp; omega⟩
    · have hstep : poolStep ⟨c, hd, cp⟩ .tryAcq = ⟨c, hd, cp⟩ := by
        simp [poolStep, h]
      rw [hstep]
      exact ⟨h1', h2', h3'⟩
  | rel =>
    have hh : (0 : Int) < hd := hop rfl
    have hstep : poolStep ⟨c, hd, cp⟩ .rel = ⟨c + 1, hd - 1, cp⟩ := rfl
    rw [hstep]
    exact ⟨by show (0 : Int) ≤ c + 1; omega, by show (0 : Int) ≤ hd - 1; omega,
      by show c + 1 + (hd - 1) = cp; omega⟩
  | grow =>
    have hstep : poolStep ⟨c, hd, cp⟩ .grow = ⟨c + 1, hd, cp + 1⟩ := rfl
    rw [hstep]
    exact ⟨by show (0 : Int) ≤ c + 1; omega, h2',
      by show c + 1 + hd = cp + 1; omega⟩

theorem poolRun_inv :
    ∀ (ops : List PoolOp) (s : PoolState), PoolInv s → ValidOps s ops →
      PoolInv (poolRun s ops) := by
  intro ops
  induction ops with
  | nil => intro s hs _; exact hs
  | cons op rest ih =>
    intro s hs hv
    obtain ⟨h1, h2⟩ := hv
    exact ih (poolStep s op) (poolStep_inv hs h1) h2

theorem validOps_append_left :
    ∀ (ops₁ ops₂ : List PoolOp) (s : PoolState),
      ValidOps s (ops₁ ++ ops₂) → ValidOps s ops₁ := by
  intro ops₁
  induction ops₁ with
  | nil => intro _ _ _; trivial
  | cons op rest ih =>
    intro ops₂ s hv
    obtain ⟨h1, h2⟩ := hv
    exact ⟨h1, ih ops₂ (poolStep s op) h2⟩

/-- Claim C3: for every pool and every valid sequence of pool operations
(blocking acquire, try-acquire, release of a held unit, capacity growth),
at every observable point — i.e. after every prefix `ops₁` of the
sequence — the available count satisfies `0 ≤ available ≤ capacity`. -/
theorem claim_C3 (s : PoolState) (ops₁ ops₂ : List PoolOp)
    (hs : PoolInv s) (hv : ValidOps s (ops₁ ++ ops₂)) :
    0 ≤ (poolRun s ops₁).count ∧ (poolRun s ops₁).count ≤ (poolRun s ops₁).cap := by
  have hinv := poolRun_inv ops₁ s hs (validOps_append_left ops₁ ops₂ s hv)
  obtain ⟨h1, h2, h3⟩ := hinv
  exact ⟨h1, by omega⟩

/-- Witness for C3: the doctors pool (3 units), after the prefix
`[acq, tryAcq, rel]` of the sequence `[acq, tryAcq, rel, rel, grow]`. -/
theorem claim_C3_witness :
    PoolInv ⟨3, 0, 3⟩ ∧
      ValidOps ⟨3, 0, 3⟩ ([.acq, .tryAcq, .rel] ++ [.rel, .grow]) ∧
      0 ≤ (poolRun ⟨3, 0, 3⟩ [.acq, .tryAcq, .rel]).count ∧
      (poolRun ⟨3, 0, 3⟩ [.acq, .tryAcq, .rel]).count ≤
        (poolRun ⟨3, 0, 3⟩ [.acq, .tryAcq, .rel]).cap :=
  ⟨by decide, by decide,
    (claim_C3 ⟨3, 0, 3⟩ [.acq, .tryAcq, .rel] [.rel, .grow] (by decide) (by decide)).1,
    (claim_C3 ⟨3, 0, 3⟩ [.acq, .tryAcq, .rel] [.rel, .grow] (by decide) (by decide)).2⟩

/-- The four global pools:
`doctorsAvailable(3)`, `nursesAvailable(2)`, `examRoomsAvailable(2)`,
`ventilatorsAvailable(1)` — one `count` each. -/
structure Pools where
  doctors : Int
  nurses : Int
  rooms : Int
  vents : Int
deriving DecidableEq, Repr

/-- The initial pool counts of the program. -/
def initPools : Pools := ⟨3, 2, 2, 1⟩

/-- The observable actions one worker-cycle / controller-tick performs on
the pools, in program order: semaphore acquisitions and releases, the
ventilator `try_acquire` outcome, and the treatment start / completion
reports (`displayState`, the `cout` degraded-service message). -/
inductive Ev where
  | acqDoc
  | acqNurse
  | acqRoom
  | ventOk
  | ventFail
  | treatStart
  | relVent
  | relDoc
  | relNurse
  | relRoom
  | finished
deriving DecidableEq, Repr

/-- Effect of one event on the pools (report events change nothing). -/
def applyEv (s : Pools) : Ev → Pools
  | .acqDoc => { s with doctors := s.doctors - 1 }
  | .acqNurse => { s with nurses := s.nurses - 1 }
  | .acqRoom => { s with rooms := s.rooms - 1 }
  | .ventOk => { s with vents := s.vents - 1 }
  | .ventFail => s
  | .treatStart => s
  | .relVent => { s with vents := s.vents + 1 }
  | .relDoc => { s with doctors := s.doctors + 1 }
  | .relNurse => { s with nurses := s.nurses + 1 }
  | .relRoom => { s with rooms := s.rooms + 1 }
  | .finished => s

/-- Replay an event list from `s`: the list of pool states after each
event (every observable intermediate point) and the final state. -/
def runEvs (s : Pools) : List Ev → List Pools × Pools
  | [] => ([], s)
  | e :: rest =>
    let s' := applyEv s e
    let r := runEvs s' rest
    (s' :: r.1, r.2)

/-- The final pool state after an event list. -/
def runFinal (s : Pools) (evs : List Ev) : Pools := (runEvs s evs).2

/-- One iteration body of `treatPatient` after the patient `p` has been
popped: acquire a doctor, a nurse and an exam room (blocking — `none`
models a cycle that cannot complete because a mandatory pool is exhausted
in this sequential semantics; pools are independent, so each wait only
depends on that pool's own count), then, only for HIGH priority, try to
allocate a ventilator; report treatment, sleep, release the ventilator iff
it was allocated, then doctor, nurse, room, and report completion. -/
def treatCycleEvs (p : Patient) (s : Pools) : Option (List Ev) :=
  if s.doctors ≤ 0 then none
  else if s.nurses ≤ 0 then none
  else if s.rooms ≤ 0 then none
  else if p.priority = Priority.HIGH then
    if 0 < s.vents then
      some [.acqDoc, .acqNurse, .acqRoom, .ventOk, .treatStart,
        .relVent, .relDoc, .relNurse, .relRoom, .finished]
    else
      some [.acqDoc, .acqNurse, .acqRoom, .ventFail, .treatStart,
        .relDoc, .relNurse, .relRoom, .finished]
  else
    some [.acqDoc, .acqNurse, .acqRoom, .treatStart,
      .relDoc, .relNurse, .relRoom, .finished]

/-- Every cycle's event list starts with the three mandatory acquisitions
and never contains a second copy of them. -/
def isMandAcq : Ev → Bool
  | .acqDoc => true
  | .acqNurse => true
  | .acqRoom => true
  | _ => false

theorem treatCycleEvs_cases {p : Patient} {s : Pools} {evs : List Ev}
    (h : treatCycleEvs p s = some evs) :
    (p.priority = Priority.HIGH ∧ 0 < s.vents ∧
      evs = [.acqDoc, .acqNurse, .acqRoom, .ventOk, .treatStart,
        .relVent, .relDoc, .relNurse, .relRoom, .finished]) ∨
    (p.priority = Priority.HIGH ∧ ¬ 0 < s.vents ∧
      evs = [.acqDoc, .acqNurse, .acqRoom, .ventFail, .treatStart,
        .relDoc, .relNurse, .relRoom, .finished]) ∨
    (p.priority ≠ Priority.HIGH ∧
      evs = [.acqDoc, .acqNurse, .acqRoom, .treatStart,
        .relDoc, .relNurse, .relRoom, .finished]) := by
  unfold treatCycleEvs at h
  by_cases h1 : s.doctors ≤ 0
  · simp [h1] at h
  by_cases h2 : s.nurses ≤ 0
  · simp [h1, h2] at h
  by_cases h3 : s.rooms ≤ 0
  · simp [h1, h2, h3] at h
  by_cases h4 : p.priority = Priority.HIGH
  · by_cases h5 : 0 < s.vents
    · simp only [h1, h2, h3, h4, h5, if_false, if_true, Option.some.injEq] at h
      exact Or.inl ⟨h4, h5, h.symm⟩
    · simp only [h1, h2, h3, h4, h5, if_false, if_true, Option.some.injEq] at h
      exact Or.inr (Or.inl ⟨h4, h5, h.symm⟩)
  · simp only [h1, h2, h3, h4, if_false, if_true, Option.some.injEq] at h
    exact Or.inr (Or.inr ⟨h4, h.symm⟩)

theorem runFinal_eq_of_treatCycle {p : Patient} {s : Pools} {evs : List Ev}
    (h : treatCycleEvs p s = some evs) : runFinal s evs = s := by
  rcases treatCycleEvs_cases h with ⟨_, _, he⟩ | ⟨_, _, he⟩ | ⟨_, he⟩ <;>
    · subst he
      obtain ⟨d, n, r, v⟩ := s
      simp only [runFinal, runEvs, applyEv]
      congr 1 <;> omega

/-- Claim C4: in every treatment cycle the ventilator is attempted exactly
when the dequeued patient's priority is HIGH, only after the doctor, nurse
and exam room acquisitions (the event list starts with those three), via
the non-blocking `try_acquire` (success exactly when a ventilator is
available); and when it is unavailable the cycle still reports the
degraded outcome, starts treatment and completes normally, with all pools
restored. -/
theorem claim_C4 (p : Patient) (s : Pools) (evs : List Ev)
    (h : treatCycleEvs p s = some evs) :
    ((Ev.ventOk ∈ evs ∨ Ev.ventFail ∈ evs) ↔ p.priority = Priority.HIGH) ∧
    (∃ rest, evs = Ev.acqDoc :: Ev.acqNurse :: Ev.acqRoom :: rest) ∧
    (p.priority = Priority.HIGH → (Ev.ventOk ∈ evs ↔ 0 < s.vents)) ∧
    (Ev.ventFail ∈ evs →
      Ev.treatStart ∈ evs ∧ Ev.finished ∈ evs ∧ Ev.relVent ∉ evs ∧
        runFinal s evs = s) := by
  have hfin := runFinal_eq_of_treatCycle h
  rcases treatCycleEvs_cases h with ⟨h4, h5, he⟩ | ⟨h4, h5, he⟩ | ⟨h4, he⟩ <;>
    subst he
  · refine ⟨by simp [h4], ⟨_, rfl⟩, fun _ => by simp [h5], by simp⟩
  · refine ⟨by simp [h4], ⟨_, rfl⟩, fun _ => by simp [h5], ?_⟩
    intro _
    exact ⟨by simp, by simp, by simp, hfin⟩
  · refine ⟨by simp [h4], ⟨_, rfl⟩, fun hc => absurd hc h4, by simp⟩

/-- Witness for C4: the spec scenario — pools `{1, 1, 1, 0}` (no
ventilator), one HIGH patient: the cycle runs, the ventilator attempt
fails, treatment starts and completes, pools are restored. -/
theorem claim_C4_witness :
    treatCycleEvs highArrival ⟨1, 1, 1, 0⟩ =
      some [.acqDoc, .acqNurse, .acqRoom, .ventFail, .treatStart,
        .relDoc, .relNurse, .relRoom, .finished] ∧
    (((Ev.ventOk ∈ [Ev.acqDoc, Ev.acqNurse, Ev.acqRoom, Ev.ventFail, Ev.treatStart,
        Ev.relDoc, Ev.relNurse, Ev.relRoom, Ev.finished] ∨
      Ev.ventFail ∈ [Ev.acqDoc, Ev.acqNurse, Ev.acqRoom, Ev.ventFail, Ev.treatStart,
        Ev.relDoc, Ev.relNurse, Ev.relRoom, Ev.finished]) ↔
        highArrival.priority = Priority.HIGH) ∧
      (∃ rest, [Ev.acqDoc, Ev.acqNurse, Ev.acqRoom, Ev.ventFail, Ev.treatStart,
        Ev.relDoc, Ev.relNurse, Ev.relRoom, Ev.finished] =
          Ev.acqDoc :: Ev.acqNurse :: Ev.acqRoom :: rest) ∧
      (highArrival.priority = Priority.HIGH →
        (Ev.ventOk ∈ [Ev.acqDoc, Ev.acqNurse, Ev.acqRoom, Ev.ventFail, Ev.treatStart,
          Ev.relDoc, Ev.relNurse, Ev.relRoom, Ev.finished] ↔
            0 < (Pools.mk 1 1 1 0).vents)) ∧
      (Ev.ventFail ∈ [Ev.acqDoc, Ev.acqNurse, Ev.acqRoom, Ev.ventFail, Ev.treatStart,
          Ev.relDoc, Ev.relNurse, Ev.relRoom, Ev.finished] →
        Ev.treatStart ∈ [Ev.acqDoc, Ev.acqNurse, Ev.acqRoom, Ev.ventFail, Ev.treatStart,
          Ev.relDoc, Ev.relNurse, Ev.relRoom, Ev.finished] ∧
        Ev.finished ∈ [Ev.acqDoc, Ev.acqNurse, Ev.acqRoom, Ev.ventFail, Ev.treatStart,
          Ev.relDoc, Ev.relNurse, Ev.relRoom, Ev.finished] ∧
        Ev.relVent ∉ [Ev.acqDoc, Ev.acqNurse, Ev.acqRoom, Ev.ventFail, Ev.treatStart,
          Ev.relDoc, Ev.relNurse, Ev.relRoom, Ev.finished] ∧
        runFinal ⟨1, 1, 1, 0⟩ [Ev.acqDoc, Ev.acqNurse, Ev.acqRoom, Ev.ventFail,
          Ev.treatStart, Ev.relDoc, Ev.relNurse, Ev.relRoom, Ev.finished] =
            ⟨1, 1, 1, 0⟩)) :=
  ⟨by decide, claim_C4 highArrival ⟨1, 1, 1, 0⟩ _ (by decide)⟩

/-- Claim C5: in every completed treatment cycle the mandatory resources
are acquired exactly in the fixed global order doctor, nurse, exam room —
the subsequence of mandatory-acquisition events of any cycle's event list
is literally `[acqDoc, acqNurse, acqRoom]`, for every worker (all workers
run the same `treatPatient` body). -/
theorem claim_C5 (p : Patient) (s : Pools) (evs : List Ev)
    (h : treatCycleEvs p s = some evs) :
    evs.filter isMandAcq = [Ev.acqDoc, Ev.acqNurse, Ev.acqRoom] := by
  rcases treatCycleEvs_cases h with ⟨_, _, he⟩ | ⟨_, _, he⟩ | ⟨_, he⟩ <;>
    subst he <;> rfl

/-- Witness for C5: a MEDIUM patient on the initial pools. -/
theorem claim_C5_witness :
    treatCycleEvs medArrival initPools =
      some [.acqDoc, .acqNurse, .acqRoom, .treatStart,
        .relDoc, .relNurse, .relRoom, .finished] ∧
    List.filter isMandAcq [Ev.acqDoc, Ev.acqNurse, Ev.acqRoom, Ev.treatStart,
        Ev.relDoc, Ev.relNurse, Ev.relRoom, Ev.finished] =
      [Ev.acqDoc, Ev.acqNurse, Ev.acqRoom] :=
  ⟨by decide, claim_C5 medArrival initPools _ (by decide)⟩

/-- One complete worker iteration run without interleaving: pop the most
urgent queued patient, then run the treatment cycle on the pools.
Returns the treated patient, the remaining queue, the cycle's events and
the final pools; `none` when the queue is empty (the worker waits) or a
mandatory pool is exhausted (the cycle cannot complete alone). -/
def workerIteration (q : List Patient) (s : Pools) :
    Option (Patient × List Patient × List Ev × Pools) :=
  match q with
  | [] => none
  | p :: rest =>
    let m := extractTop p rest
    (treatCycleEvs m.1 s).map fun evs => (m.1, m.2, evs, runFinal s evs)

/-- Claim C10: a complete treatment cycle, run without interleaved
operations from other components, has zero net effect on every resource
pool — the final pools equal the pools at the start of acquisition — and
the only other change is that the admission queue shrinks by exactly the
dequeued entity. -/
theorem claim_C10 (q : List Patient) (s : Pools) (p : Patient)
    (q' : List Patient) (evs : List Ev) (s' : Pools)
    (h : workerIteration q s = some (p, q', evs, s')) :
    s' = s ∧ List.Perm (p :: q') q ∧ q'.length + 1 = q.length := by
  match q with
  | [] => simp [workerIteration] at h
  | p0 :: rest =>
    have h' : (treatCycleEvs (extractTop p0 rest).1 s).map
        (fun evs => ((extractTop p0 rest).1, (extractTop p0 rest).2, evs,
          runFinal s evs)) = some (p, q', evs, s') := h
    cases hc : treatCycleEvs (extractTop p0 rest).1 s with
    | none => rw [hc] at h'; exact Option.noConfusion h'
    | some evs0 =>
      rw [hc] at h'
      simp at h'
      obtain ⟨hp, hq', hevs, hs'⟩ := h'
      subst hp
      subst hq'
      subst hevs
      subst hs'
      refine ⟨runFinal_eq_of_treatCycle hc, extractTop_perm p0 rest, ?_⟩
      rw [extractTop_length]
      simp

/-- Witness for C10: the HIGH patient amid a three-patient queue on the
initial pools. -/
theorem claim_C10_witness :
    workerIteration [lowArrival, highArrival, medArrival] initPools =
      some (highArrival, [lowArrival, medArrival],
        [.acqDoc, .acqNurse, .acqRoom, .ventOk, .treatStart,
          .relVent, .relDoc, .relNurse, .relRoom, .finished], initPools) ∧
    (initPools = initPools ∧
      List.Perm (highArrival :: [lowArrival, medArrival])
        [lowArrival, highArrival, medArrival] ∧
      [lowArrival, medArrival].length + 1 =
        [lowArrival, highArrival, medArrival].length) :=
  ⟨by decide, claim_C10 [lowArrival, highArrival, medArrival] initPools
    highArrival [lowArrival, medArrival]
    [.acqDoc, .acqNurse, .acqRoom, .ventOk, .treatStart,
      .relVent, .relDoc, .relNurse, .relRoom, .finished]
    initPools (by decide)⟩

/-- The `while (isRunning)` loop of `treatPatient`, with the shutdown flag
held constant at `running` (the program sets `isRunning = false` exactly
once, so this models execution from any loop head after — or before — the
flip).  `fuel` bounds the number of iterations; the result is
`some (treated, remainingQueue, pools)` when the worker reaches its
terminal state (falls out of the loop), and `none` while it is still
running or blocked (empty queue with `running = true`: the worker waits in
`cv.wait`; exhausted mandatory pool: it waits in `acquire`). -/
def treatLoop (running : Bool) :
    Nat → List Patient → Pools → Option (List Patient × List Patient × Pools)
  | fuel, q, s =>
    if running then
      match fuel, q with
      | 0, _ => none
      | _ + 1, [] => none
      | fuel + 1, p :: rest =>
        let m := extractTop p rest
        match treatCycleEvs m.1 s with
        | none => none
        | some evs =>
          match treatLoop running fuel m.2 (runFinal s evs) with
          | none => none
          | some (treated, q', s') => some (m.1 :: treated, q', s')
    else
      -- `while (isRunning)` fails immediately: the worker terminates,
      -- whatever the queue still holds.
      some ([], q, s)

/-- With the shutdown flag set, a worker at its loop head terminates at
once: it treats nothing and leaves the queue as it is. -/
theorem treatLoop_shutdown (fuel : Nat) (q : List Patient) (s : Pools) :
    treatLoop false fuel q s = some ([], q, s) := by
  unfold treatLoop
  rfl

/-- Claim C2 fails on the code: with the shutdown flag set and one HIGH
patient still queued, the worker's `while (isRunning)` guard is already
false, so the worker reaches its terminal state immediately — it processes
none of the M = 1 queued entities and leaves the queue non-empty.  (The
inner `if (!isRunning && patientQueue.empty()) break;` only lets a worker
woken inside `cv.wait` drain work; the outer loop guard defeats it.) -/
theorem claim_C2_bug :
    treatLoop false 5 [highArrival] initPools =
      some ([], [highArrival], initPools) ∧ [highArrival] ≠ [] := by
  exact ⟨treatLoop_shutdown 5 [highArrival] initPools, by decide⟩

/-- Events that touch the ventilator pool. -/
def touchesVent : Ev → Bool
  | .ventOk => true
  | .relVent => true
  | _ => false

theorem applyEv_vents_eq {s : Pools} {e : Ev} (h : touchesVent e = false) :
    (applyEv s e).vents = s.vents := by
  cases e <;> simp [applyEv, touchesVent] at h ⊢

theorem runEvs_vents_eq :
    ∀ (evs : List Ev) (s : Pools), (∀ e ∈ evs, touchesVent e = false) →
      (∀ t ∈ (runEvs s evs).1, t.vents = s.vents) ∧
        (runEvs s evs).2.vents = s.vents := by
  intro evs
  induction evs with
  | nil => intro s _; exact ⟨by simp [runEvs], rfl⟩
  | cons e rest ih =>
    intro s hall
    have he : touchesVent e = false := hall e (List.mem_cons_self e rest)
    have hrest := ih (applyEv s e) fun x hx => hall x (List.mem_cons_of_mem e hx)
    constructor
    · intro t ht
      simp only [runEvs, List.mem_cons] at ht
      rcases ht with ht | ht
      · rw [ht, applyEv_vents_eq he]
      · rw [hrest.1 t ht, applyEv_vents_eq he]
    · show (runEvs (applyEv s e) rest).2.vents = s.vents
      rw [hrest.2, applyEv_vents_eq he]

theorem treatCycle_vents {p : Patient} {s : Pools} {evs : List Ev}
    (h : treatCycleEvs p s = some evs) (hs : s.vents ≤ 1) :
    (∀ t ∈ (runEvs s evs).1, t.vents ≤ 1) ∧
      (runEvs s evs).2.vents = s.vents := by
  obtain ⟨d, n, r, v⟩ := s
  have hv : v ≤ 1 := hs
  rcases treatCycleEvs_cases h with ⟨_, _, he⟩ | ⟨_, _, he⟩ | ⟨_, he⟩ <;> subst he
  all_goals refine ⟨?_, by simp [runEvs, applyEv]⟩
  all_goals
    intro t ht
    simp only [runEvs, applyEv] at ht
    fin_cases ht <;> simp <;> omega

/-- One serialized action of a program component on the pools: a complete
treatment cycle of one worker (`work`), one `dynamicResourceGeneration`
tick adding `d ≤ 1` doctors, `n ≤ 1` nurses, `r ≤ 1` rooms by plain
`release()` calls (`grow`), or one `staffBehavior` tick (`fatigue`). -/
inductive SysOp where
  | work (p : Patient)
  | grow (d n r : Nat)
  | fatigue

/-- The event list a serialized component action emits from pool state
`s`.  A worker whose cycle cannot complete (blocked on a mandatory pool)
emits nothing. -/
def sysEvents (s : Pools) : SysOp → List Ev
  | .work p => (treatCycleEvs p s).getD []
  | .grow d n r =>
    List.replicate d .relDoc ++ List.replicate n .relNurse ++
      List.replicate r .relRoom
  | .fatigue => if 0 < s.doctors then [.acqDoc, .relDoc] else []

/-- All intermediate pool states (after every single semaphore operation)
along a serialized run of component actions. -/
def sysRun (s : Pools) : List SysOp → List Pools
  | [] => []
  | op :: ops =>
    let evs := sysEvents s op
    (runEvs s evs).1 ++ sysRun (runEvs s evs).2 ops

theorem sysEvents_vents_le {s : Pools} (op : SysOp) (hs : s.vents ≤ 1) :
    (∀ t ∈ (runEvs s (sysEvents s op)).1, t.vents ≤ 1) ∧
      (runEvs s (sysEvents s op)).2.vents = s.vents := by
  cases op with
  | work p =>
    cases hc : treatCycleEvs p s with
    | none => simp [sysEvents, hc, runEvs]
    | some evs =>
      have := treatCycle_vents hc hs
      simpa [sysEvents, hc] using this
  | grow d n r =>
    have hall : ∀ e ∈ sysEvents s (.grow d n r), touchesVent e = false := by
      intro e he
      simp only [sysEvents, List.mem_append, List.mem_replicate] at he
      rcases he with (⟨_, he⟩ | ⟨_, he⟩) | ⟨_, he⟩ <;> rw [he] <;> rfl
    have := runEvs_vents_eq _ s hall
    exact ⟨fun t ht => (this.1 t ht) ▸ hs, this.2⟩
  | fatigue =>
    have hall : ∀ e ∈ sysEvents s .fatigue, touchesVent e = false := by
      intro e he
      simp only [sysEvents] at he
      by_cases hd : 0 < s.doctors
      · simp only [hd, if_true, List.mem_cons, List.mem_singleton] at he
        rcases he with he | he | he <;> first | (rw [he]; rfl) | cases he
      · simp [hd] at he
    have := runEvs_vents_eq _ s hall
    exact ⟨fun t ht => (this.1 t ht) ▸ hs, this.2⟩

theorem sysRun_vents_le :
    ∀ (ops : List SysOp) (s : Pools), s.vents ≤ 1 →
      ∀ t ∈ sysRun s ops, t.vents ≤ 1 := by
  intro ops
  induction ops with
  | nil => intro s _ t ht; simp [sysRun] at ht
  | cons op rest ih =>
    intro s hs t ht
    have hstep := sysEvents_vents_le op hs
    simp only [sysRun, List.mem_append] at ht
    rcases ht with ht | ht
    · exact hstep.1 t ht
    · exact ih _ (hstep.2 ▸ hs) t ht

/-- Claim C9: along every serialized run of component actions from the
initial pools, every intermediate pool state keeps the ventilator count at
most its initial capacity 1; moreover a worker cycle releases the
ventilator exactly when it successfully acquired it, and a capacity-growth
tick emits no ventilator operation at all. -/
theorem claim_C9 :
    (∀ (ops : List SysOp), ∀ t ∈ sysRun initPools ops, t.vents ≤ 1) ∧
    (∀ (p : Patient) (s : Pools) (evs : List Ev),
      treatCycleEvs p s = some evs → (Ev.relVent ∈ evs ↔ Ev.ventOk ∈ evs)) ∧
    (∀ (s : Pools) (d n r : Nat),
      Ev.relVent ∉ sysEvents s (.grow d n r) ∧
        Ev.ventOk ∉ sysEvents s (.grow d n r)) := by
  refine ⟨fun ops => sysRun_vents_le ops initPools (by decide), ?_, ?_⟩
  · intro p s evs h
    rcases treatCycleEvs_cases h with ⟨_, _, he⟩ | ⟨_, _, he⟩ | ⟨_, he⟩ <;>
      subst he <;> simp
  · intro s d n r
    constructor <;>
      · intro hmem
        simp only [sysEvents, List.mem_append, List.mem_replicate] at hmem
        rcases hmem with (⟨_, hmem⟩ | ⟨_, hmem⟩) | ⟨_, hmem⟩ <;> cases hmem

/-- Witness for C9: the snapshot after the first acquisition of a HIGH
worker cycle from the initial pools, a concrete worker cycle with a
ventilator release, and a concrete growth tick. -/
theorem claim_C9_witness :
    ((Pools.mk 2 2 2 1).vents ≤ 1) ∧
      (Ev.relVent ∈ [Ev.acqDoc, Ev.acqNurse, Ev.acqRoom, Ev.ventOk, Ev.treatStart,
          Ev.relVent, Ev.relDoc, Ev.relNurse, Ev.relRoom, Ev.finished] ↔
        Ev.ventOk ∈ [Ev.acqDoc, Ev.acqNurse, Ev.acqRoom, Ev.ventOk, Ev.treatStart,
          Ev.relVent, Ev.relDoc, Ev.relNurse, Ev.relRoom, Ev.finished]) ∧
      (Ev.relVent ∉ sysEvents initPools (.grow 1 1 0) ∧
        Ev.ventOk ∉ sysEvents initPools (.grow 1 1 0)) :=
  ⟨claim_C9.1 [.work highArrival] ⟨2, 2, 2, 1⟩ (by decide),
    claim_C9.2.1 highArrival initPools _ (by decide),
    claim_C9.2.2 initPools 1 1 0⟩
